import Mathlib

/-!
Verification of the Kinetix leaderboard backend (Go sources under
backend/internal).  The Redis-backed ranking index, the leaderboard
service, the worker pool submission path and the WebSocket version hub
are embedded shallowly: Redis state is an association-list record, the
nanosecond wall clock is an explicit integer input, float64 arithmetic
is modelled exactly over the rationals, and fallible transport calls
take an explicit outcome flag.
-/

namespace Kinetix

/-- Truncation of a rational toward zero, the semantics of the Go
conversion `int(x)` applied to a float64 value. -/
def truncToward0 (q : ℚ) : ℤ :=
  if 0 ≤ q then ⌊q⌋ else ⌈q⌉

/-- `TimestampDivisor` from repository/redis.go: `10_000_000_000`. -/
def TimestampDivisor : ℤ := 10000000000

/-- `ComputeCompositeScore` from repository/redis.go:
`float64(score) + (1.0 - float64(timestamp)/TimestampDivisor)`,
modelled exactly over ℚ. -/
def ComputeCompositeScore (score : ℤ) (timestamp : ℤ) : ℚ :=
  (score : ℚ) + (1 - (timestamp : ℚ) / (TimestampDivisor : ℚ))

/-- `ExtractBaseScore` from repository/redis.go: the Go conversion
`int(compositeScore)`, which truncates toward zero. -/
def ExtractBaseScore (compositeScore : ℚ) : ℤ :=
  truncToward0 compositeScore

/-- Round `m / E` to the nearest integer, ties to even: the IEEE-754
binary64 rounding at granularity `E`. -/
def rne (m E : ℕ) : ℕ :=
  if 2 * (m % E) < E then m / E
  else if E < 2 * (m % E) then m / E + 1
  else if (m / E) % 2 = 0 then m / E else m / E + 1

/-- The Go conversion `float64(n)` of a non-negative integer in the
int64 range, as performed on `timestamp` inside the Go
`ComputeCompositeScore`: exact below `2 ^ 53`, otherwise rounded to 53
significant bits (round to nearest, ties to even), that is, to the
nearest multiple of `2 ^ (Nat.log 2 n - 52)`.  In the binade
`[2 ^ 60, 2 ^ 61)` of the operating-era `UnixNano` values this
granularity is `2 ^ 8 = 256` nanoseconds. -/
def float64OfNat (m : ℕ) : ℕ :=
  if m < 2 ^ 53 then m
  else
    let e := Nat.log 2 m - 52
    rne m (2 ^ e) * 2 ^ e

/-- The Go conversion `float64(timestamp)` on integers, by sign
symmetry; the timestamps `UpdateScore` reads from
`time.Now().UnixNano()` are positive. -/
def float64OfInt (n : ℤ) : ℤ :=
  if 0 ≤ n then (float64OfNat n.toNat : ℤ) else -(float64OfNat n.natAbs : ℤ)

/-- State of the Redis instance as used by the repository layer: the
`leaderboard:ratings` sorted set (member, composite score), the
`leaderboard:metadata` hash (member, display rating — HSET stores the
decimal rendering of the Go int and Atoi recovers it exactly, so the
value is modelled as ℤ), and the `leaderboard:version` counter
(INCR on an absent key yields 1, so the absent counter is state 0). -/
structure RedisState where
  leaderboard : List (String × ℚ)
  metadata : List (String × ℤ)
  version : ℤ
deriving DecidableEq

/-- Add-or-replace of a key in an association list: the write semantics
of both ZADD (per member) and HSET (per field). -/
def mapSet {α : Type} (l : List (String × α)) (k : String) (v : α) :
    List (String × α) :=
  (k, v) :: l.filter (fun p => p.1 ≠ k)

namespace RedisRepository

/-- `RedisRepository.UpdateScore` (repository/redis.go), success path of
the single pipeline: ZADD of the composite score, HSET of the display
rating, INCR of the version counter.  The nanosecond timestamp read by
`time.Now().UnixNano()` is the explicit input `t`. -/
def UpdateScore (s : RedisState) (username : String) (rating : ℤ) (t : ℤ) :
    RedisState :=
  let compositeScore := ComputeCompositeScore rating t
  { leaderboard := mapSet s.leaderboard username compositeScore
    metadata := mapSet s.metadata username rating
    version := s.version + 1 }

/-- `RedisRepository.GetUserScore`: HGET on the metadata hash;
`none` is the user-not-found error. -/
def GetUserScore (s : RedisState) (username : String) : Option ℤ :=
  s.metadata.lookup username

/-- `RedisRepository.GetUserScoreBatch`: HMGET over the metadata hash;
a username that is absent (nil reply) is skipped silently, exactly as
the `continue` branches do (an unparsable stored value is likewise
skipped by the code and is subsumed by absence in this model). -/
def GetUserScoreBatch (s : RedisState) (usernames : List String) :
    List (String × ℤ) :=
  usernames.filterMap (fun u => (s.metadata.lookup u).map (fun r => (u, r)))

/-- The 6-decimal rounding performed by `fmt.Sprintf("(%f", score)`
when `GetUserRank` renders the exclusive ZCOUNT lower bound. -/
def formatF6 (q : ℚ) : ℚ :=
  ((⌊q * 1000000 + 1 / 2⌋ : ℤ) : ℚ) / 1000000

/-- `RedisRepository.GetUserRank`: ZSCORE of the member, then ZCOUNT
over the exclusive interval whose lower bound is the `%f` (6-decimal)
rendering of that score, plus one.  `none` is the not-found error. -/
def GetUserRank (s : RedisState) (username : String) : Option ℤ :=
  match s.leaderboard.lookup username with
  | none => none
  | some compositeScore =>
      let bound := formatF6 compositeScore
      some (((s.leaderboard.filter (fun p => bound < p.2)).length : ℤ) + 1)

/-- `RedisRepository.GetLeaderboardVersion`: GET on the version key,
0 when the key is absent (absence is modelled as state 0). -/
def GetLeaderboardVersion (s : RedisState) : ℤ :=
  s.version

/-- ZREVRANGE member order: descending composite score, ties in
descending member order.  Insertion precedes `y` when `y` scores lower,
or ties on score with a member that is not above. -/
def zrevBefore (x y : String × ℚ) : Prop :=
  y.2 < x.2 ∨ (x.2 = y.2 ∧ y.1 ≤ x.1)

instance : DecidableRel zrevBefore := by
  intro x y
  unfold zrevBefore
  infer_instance

/-- Insertion step of the descending sort modelling ZREVRANGE. -/
def insertDesc (x : String × ℚ) : List (String × ℚ) → List (String × ℚ)
  | [] => [x]
  | y :: ys => if zrevBefore x y then x :: y :: ys else y :: insertDesc x ys

/-- The full ZREVRANGE ordering of the sorted set. -/
def zrevAll (s : RedisState) : List (String × ℚ) :=
  s.leaderboard.foldr insertDesc []

/-- `RedisRepository.GetTopUsers`: ZREVRANGEWITHSCORES over the index
positions `start = offset` through `stop = offset + limit - 1`
(inclusive), then each composite score is replaced by
`float64(ExtractBaseScore(score))`.  Callers always pass a normalized
`offset ≥ 0` and `limit ≥ 1`, where this drop/take model and the Redis
index range coincide. -/
def GetTopUsers (s : RedisState) (offset limit : ℤ) : List (String × ℚ) :=
  let start := offset
  let stop := offset + limit - 1
  (((zrevAll s).drop start.toNat).take (stop - start + 1).toNat).map
    (fun p => (p.1, ((ExtractBaseScore p.2 : ℤ) : ℚ)))

/-- `RedisRepository.GetTotalUsers`: ZCARD of the sorted set. -/
def GetTotalUsers (s : RedisState) : ℤ :=
  (s.leaderboard.length : ℤ)

/-- Per-entry body of the `BulkUpdateScores` pipeline loop: ZADD of the
composite score at the running timestamp and HSET of the rating, with
the timestamp then incremented by one for the next entry.  The version
key is untouched inside the loop. -/
def bulkLoop (s : RedisState) : List (String × ℤ) → ℤ → RedisState
  | [], _ => s
  | (username, rating) :: rest, t =>
      let compositeScore := ComputeCompositeScore rating t
      bulkLoop
        { s with
          leaderboard := mapSet s.leaderboard username compositeScore
          metadata := mapSet s.metadata username rating }
        rest (t + 1)

/-- `RedisRepository.BulkUpdateScores`, success path of the single
pipeline: the per-entry loop over the user map (as an entry list, Go
map iteration order being unspecified) followed by exactly one INCR of
the version counter for the whole batch. -/
def BulkUpdateScores (s : RedisState) (users : List (String × ℤ)) (t : ℤ) :
    RedisState :=
  let s1 := bulkLoop s users t
  { s1 with version := s1.version + 1 }

end RedisRepository

/-- `worker.ScoreUpdateTask` (worker pool task payload). -/
structure ScoreUpdateTask where
  username : String
  rating : ℤ
deriving DecidableEq

/-- Worker pool state visible to `Submit`: the buffered jobs channel
(contents and capacity) and the backpressure counter of `PoolMetrics`. -/
structure PoolState where
  jobs : List ScoreUpdateTask
  capacity : ℕ
  backpressure : ℕ
deriving DecidableEq

namespace WorkerPool

/-- `WorkerPool.Submit` (worker pool): a non-blocking send on the
buffered jobs channel.  It enqueues and returns success when the
buffer has slack; otherwise it increments the backpressure counter and
returns the queue-full error (`false`). -/
def Submit (wp : PoolState) (task : ScoreUpdateTask) : Bool × PoolState :=
  if wp.jobs.length < wp.capacity then
    (true, { wp with jobs := wp.jobs ++ [task] })
  else
    (false, { wp with backpressure := wp.backpressure + 1 })

end WorkerPool

/-- `models.LeaderboardEntry`. -/
structure LeaderboardEntry where
  rank : ℤ
  username : String
  rating : ℤ
deriving DecidableEq

/-- `models.LeaderboardResponse`. -/
structure LeaderboardResponse where
  data : List LeaderboardEntry
  offset : ℤ
  limit : ℤ
  total : ℤ
deriving DecidableEq

/-- `models.SearchResponse`. -/
structure SearchResponse where
  globalRank : ℤ
  username : String
  rating : ℤ
deriving DecidableEq

/-- State owned by the leaderboard service: the Redis index and the
worker pool (the durable store is only reached through pool tasks and
plays no part in the verified claims). -/
structure ServiceState where
  redis : RedisState
  pool : PoolState
deriving DecidableEq

/-- Transport outcomes of the Redis calls issued by one
`GetLeaderboard` request, in issue order: `GetTopUsers`,
`GetTotalUsers`, `GetUserScoreBatch`.  `true` is a successful
round-trip. -/
structure ReadOutcomes where
  topOk : Bool
  cardOk : Bool
  batchOk : Bool
deriving DecidableEq

namespace LeaderboardService

/-- `LeaderboardService.UpdateScore` (service/leaderboard.go).  The two
sequential clamping conditionals, then the synchronous Redis upsert
(`redisFail` is the transport outcome; on failure the error returns at
once and no state moves), then the pool submission whose error is
swallowed.  Returns the error outcome paired with the post state. -/
def UpdateScore (st : ServiceState) (username : String) (rating : ℤ)
    (t : ℤ) (redisFail : Bool) : Option String × ServiceState :=
  let r1 := if rating < 100 then (100 : ℤ) else rating
  let r2 := if r1 > 5000 then (5000 : ℤ) else r1
  if redisFail then
    (some "failed to update Redis", st)
  else
    let redis1 := RedisRepository.UpdateScore st.redis username r2 t
    let sub := WorkerPool.Submit st.pool { username := username, rating := r2 }
    (none, { redis := redis1, pool := sub.2 })

/-- The iterations `i ≥ 1` of the `applyTieAwareRanking` loop, with the
mutable Go locals as arguments: `currentRank`, `previousRating` and
`sameRankCount` carry the values they hold when the iteration starts. -/
def rankLoop (ratingOf : String → ℤ) (currentRank previousRating sameRankCount : ℤ) :
    List String → List LeaderboardEntry
  | [] => []
  | username :: rest =>
      let rating := ratingOf username
      if rating = previousRating then
        { rank := currentRank, username := username, rating := rating } ::
          rankLoop ratingOf currentRank previousRating (sameRankCount + 1) rest
      else
        { rank := currentRank + sameRankCount, username := username, rating := rating } ::
          rankLoop ratingOf (currentRank + sameRankCount) rating 1 rest

/-- `LeaderboardService.applyTieAwareRanking` (service/leaderboard.go).
Empty input returns the empty entry list at once; a failed
`GetUserScoreBatch` round-trip (`batchOk = false`) logs and falls back
to the empty entry list.  Otherwise the loop runs with ratings read
from the batch map, whose Go zero value `0` stands in for any username
the batch omitted; the `i = 0` iteration (which only seeds the locals)
is unrolled into the list head here. -/
def applyTieAwareRanking (s : RedisState) (users : List (String × ℚ))
    (offset : ℤ) (batchOk : Bool) : List LeaderboardEntry :=
  match users.map Prod.fst with
  | [] => []
  | u :: rest =>
      if batchOk then
        let scores := RedisRepository.GetUserScoreBatch s (u :: rest)
        let ratingOf := fun v => (scores.lookup v).getD 0
        { rank := offset + 1, username := u, rating := ratingOf u } ::
          rankLoop ratingOf (offset + 1) (ratingOf u) 1 rest
      else []

/-- `LeaderboardService.GetLeaderboard` (service/leaderboard.go):
normalize the pagination inputs, read the slice and the cardinality
(each aborting with an error on transport failure), project the
tie-aware ranking, and assemble the response. -/
def GetLeaderboard (s : RedisState) (o : ReadOutcomes) (offset limit : ℤ) :
    Except String LeaderboardResponse :=
  let offset1 := if offset < 0 then 0 else offset
  let limit1 := if limit ≤ 0 ∨ limit > 100 then 50 else limit
  if o.topOk then
    let users := RedisRepository.GetTopUsers s offset1 limit1
    if o.cardOk then
      let total := RedisRepository.GetTotalUsers s
      let entries := applyTieAwareRanking s users offset1 o.batchOk
      Except.ok { data := entries, offset := offset1, limit := limit1, total := total }
    else Except.error "failed to get total users"
  else Except.error "failed to get top users"

/-- `LeaderboardService.SearchUser` (service/leaderboard.go):
`GetUserRank` then `GetUserScore`; either not-found aborts with an
error. -/
def SearchUser (s : RedisState) (username : String) :
    Except String SearchResponse :=
  match RedisRepository.GetUserRank s username with
  | none => Except.error "failed to get user rank"
  | some rank =>
      match RedisRepository.GetUserScore s username with
      | none => Except.error "failed to get user score"
      | some rating =>
          Except.ok { globalRank := rank, username := username, rating := rating }

end LeaderboardService

/-- The outbound queue capacity of a subscriber, from
`make(chan []byte, 256)` in `ServeWS`. -/
def sendQueueCapacity : ℕ := 256

/-- The `VersionUpdate` JSON frame. -/
structure VersionUpdate where
  type : String
  version : ℤ
deriving DecidableEq

/-- Hub state read and written by a broadcast tick: the outbound queue
of every registered client, in registration order, and the
last-observed version. -/
structure HubState where
  clients : List (List VersionUpdate)
  lastVersion : ℤ
deriving DecidableEq

namespace Hub

/-- `Hub.checkAndBroadcastVersion` (websocket/hub.go), one tick:
`polled` is the `GetLeaderboardVersion` result (`none` on transport
error, which returns with nothing changed).  When the polled value
differs from the last observed one, the last observed version is
replaced and the `VERSION_UPDATE` frame is offered to every client by
a non-blocking channel send: a client whose queue has slack receives
it appended, a client whose queue is full is skipped. -/
def checkAndBroadcastVersion (h : HubState) (polled : Option ℤ) : HubState :=
  match polled with
  | none => h
  | some currentVersion =>
      if currentVersion ≠ h.lastVersion then
        let message : VersionUpdate :=
          { type := "VERSION_UPDATE", version := currentVersion }
        { clients := h.clients.map (fun send =>
            if send.length < sendQueueCapacity then send ++ [message] else send)
          lastVersion := currentVersion }
      else h

end Hub

/-! Reference definitions taken from the words of the specification,
for comparison with the embedded code. -/

/-- Ranks `ρ_i` for `i ≥ 2` of the standard-competition (1224)
recurrence of the spec: over ratings `r_i`, `ρ_i = ρ_{i-1}` when
`r_i = r_{i-1}`, else `ρ_i = offset + i`.  `pos` is the 1-based
position `i` of the next rating, `prevRank`/`prevRating` are
`ρ_{i-1}`/`r_{i-1}`. -/
def specLoop (offset : ℤ) : ℤ → ℤ → ℤ → List ℤ → List ℤ
  | _, _, _, [] => []
  | pos, prevRank, prevRating, r :: rest =>
      let rho := if r = prevRating then prevRank else offset + pos
      rho :: specLoop offset (pos + 1) rho r rest

/-- The 1224 standard-competition rank sequence of the spec over a
rating sequence: `ρ_1 = offset + 1`, then the recurrence `specLoop`
from position 2. -/
def standardCompetitionRanks (offset : ℤ) : List ℤ → List ℤ
  | [] => []
  | r :: rest => (offset + 1) :: specLoop offset 2 (offset + 1) r rest

/-- The exact global rank demanded by the spec for `RankOf`: one plus
the number of members whose exact composite score strictly exceeds the
given one. -/
def exactStrictRank (s : RedisState) (c : ℚ) : ℤ :=
  ((s.leaderboard.filter (fun p => c < p.2)).length : ℤ) + 1

/-! Helper lemmas. -/

theorem lookup_mapSet {α : Type} (l : List (String × α)) (k : String) (v : α) :
    (mapSet l k v).lookup k = some v := by
  simp [mapSet, List.lookup]

theorem bulkLoop_version (users : List (String × ℤ)) :
    ∀ (s : RedisState) (t : ℤ),
      (RedisRepository.bulkLoop s users t).version = s.version := by
  induction users with
  | nil => intro s t; rfl
  | cons p rest ih =>
      intro s t
      cases p with
      | mk username rating => simpa [RedisRepository.bulkLoop] using ih _ _

theorem rankLoop_map_username (f : String → ℤ) (l : List String) :
    ∀ cr pr cnt,
      (LeaderboardService.rankLoop f cr pr cnt l).map (fun e => e.username) = l := by
  induction l with
  | nil => intro cr pr cnt; rfl
  | cons u rest ih =>
      intro cr pr cnt
      by_cases hc : f u = pr <;>
        simp [LeaderboardService.rankLoop, hc, ih]

theorem rankLoop_map_rating (f : String → ℤ) (l : List String) :
    ∀ cr pr cnt,
      (LeaderboardService.rankLoop f cr pr cnt l).map (fun e => e.rating) = l.map f := by
  induction l with
  | nil => intro cr pr cnt; rfl
  | cons u rest ih =>
      intro cr pr cnt
      by_cases hc : f u = pr <;>
        simp [LeaderboardService.rankLoop, hc, ih]

theorem rankLoop_rating_of_mem (f : String → ℤ) (l : List String) :
    ∀ cr pr cnt e, e ∈ LeaderboardService.rankLoop f cr pr cnt l →
      e.rating = f e.username := by
  induction l with
  | nil => intro cr pr cnt e he; cases he
  | cons u rest ih =>
      intro cr pr cnt e he
      simp only [LeaderboardService.rankLoop] at he
      by_cases hc : f u = pr
      · rw [if_pos hc] at he
        rcases List.mem_cons.mp he with he1 | he1
        · subst he1; rfl
        · exact ih _ _ _ _ he1
      · rw [if_neg hc] at he
        rcases List.mem_cons.mp he with he1 | he1
        · subst he1; rfl
        · exact ih _ _ _ _ he1

theorem rankLoop_map_rank (f : String → ℤ) (offset : ℤ) (l : List String) :
    ∀ cr pr cnt pos, cr + cnt = offset + pos →
      (LeaderboardService.rankLoop f cr pr cnt l).map (fun e => e.rank)
        = specLoop offset pos cr pr (l.map f) := by
  induction l with
  | nil => intro cr pr cnt pos hinv; rfl
  | cons u rest ih =>
      intro cr pr cnt pos hinv
      simp only [LeaderboardService.rankLoop, List.map_cons, specLoop]
      by_cases hc : f u = pr
      · rw [if_pos hc, if_pos hc, List.map_cons]
        refine congrArg (cr :: ·) ?_
        rw [hc]
        exact ih cr pr (cnt + 1) (pos + 1) (by omega)
      · rw [if_neg hc, if_neg hc, List.map_cons, hinv]
        refine congrArg ((offset + pos) :: ·) ?_
        exact ih (offset + pos) (f u) 1 (pos + 1) (by omega)

theorem lookup_GetUserScoreBatch_eq_none (s : RedisState) (u : String)
    (hm : s.metadata.lookup u = none) :
    ∀ usernames : List String,
      (RedisRepository.GetUserScoreBatch s usernames).lookup u = none := by
  intro usernames
  induction usernames with
  | nil => rfl
  | cons v rest ih =>
      unfold RedisRepository.GetUserScoreBatch at ih ⊢
      rw [List.filterMap_cons]
      cases hv : s.metadata.lookup v with
      | none => simpa using ih
      | some r =>
          have huv : (u == v) = false := by
            refine beq_eq_false_iff_ne.mpr ?_
            intro hx
            rw [hx, hv] at hm
            cases hm
          simp only [Option.map_some']
          simpa [List.lookup, huv] using ih

theorem applyTieAwareRanking_batch_failed (s : RedisState)
    (users : List (String × ℚ)) (offset : ℤ) :
    LeaderboardService.applyTieAwareRanking s users offset false = [] := by
  unfold LeaderboardService.applyTieAwareRanking
  split <;> simp

theorem applyTieAwareRanking_usernames (s : RedisState)
    (users : List (String × ℚ)) (offset : ℤ) :
    (LeaderboardService.applyTieAwareRanking s users offset true).map
        (fun e => e.username)
      = users.map Prod.fst := by
  unfold LeaderboardService.applyTieAwareRanking
  cases hu : users.map Prod.fst with
  | nil => simp
  | cons u rest => simp [rankLoop_map_username]

theorem applyTieAwareRanking_ranks (s : RedisState)
    (users : List (String × ℚ)) (offset : ℤ) :
    (LeaderboardService.applyTieAwareRanking s users offset true).map
        (fun e => e.rank)
      = standardCompetitionRanks offset
          ((LeaderboardService.applyTieAwareRanking s users offset true).map
            (fun e => e.rating)) := by
  unfold LeaderboardService.applyTieAwareRanking
  cases hu : users.map Prod.fst with
  | nil => simp [standardCompetitionRanks]
  | cons u rest =>
      dsimp only
      rw [if_pos rfl]
      simp only [List.map_cons, standardCompetitionRanks]
      rw [rankLoop_map_rating]
      exact congrArg ((offset + 1) :: ·)
        (rankLoop_map_rank _ offset rest (offset + 1) _ 1 2 (by omega))

theorem applyTieAwareRanking_rating_of_mem (s : RedisState)
    (users : List (String × ℚ)) (offset : ℤ) (e : LeaderboardEntry)
    (he : e ∈ LeaderboardService.applyTieAwareRanking s users offset true) :
    e.rating = ((RedisRepository.GetUserScoreBatch s
        (users.map Prod.fst)).lookup e.username).getD 0 := by
  unfold LeaderboardService.applyTieAwareRanking at he
  split at he
  case _ heq => cases he
  case _ u rest heq =>
      rw [if_pos rfl] at he
      rw [heq]
      rcases List.mem_cons.mp he with he1 | he1
      · subst he1; rfl
      · exact rankLoop_rating_of_mem _ rest _ _ _ e he1

/-! Claim theorems. -/

/-- C1 (code bug, evaluation at the failing input): the spec claims the
write-time timestamp satisfies `t / 10^10 ∈ (0, 1)` so that
`ExtractBaseScore` recovers the rating, but `time.Now().UnixNano()`
values of the operating era are close to `1.7 * 10^18`: dividing by
`TimestampDivisor` gives `1.7 * 10^8`, far outside `(0, 1)`, and the
extracted base score of a rating-500 write is `-169999499`, not 500. -/
theorem c1_floor_recovery_fails_for_wall_clock_timestamps :
    (1700000000000000000 : ℚ) / ((TimestampDivisor : ℤ) : ℚ) = 170000000 ∧
    ¬ ((1700000000000000000 : ℚ) / ((TimestampDivisor : ℤ) : ℚ) < 1) ∧
    ExtractBaseScore (ComputeCompositeScore 500 1700000000000000000)
        = -169999499 ∧
    ExtractBaseScore (ComputeCompositeScore 500 1700000000000000000) ≠ 500 := by
  have hdiv : (1700000000000000000 : ℚ) / ((TimestampDivisor : ℤ) : ℚ)
      = 170000000 := by
    norm_num [TimestampDivisor]
  have hc : ComputeCompositeScore 500 1700000000000000000
      = ((-169999499 : ℤ) : ℚ) := by
    unfold ComputeCompositeScore
    norm_num [TimestampDivisor]
  have hx : ExtractBaseScore (ComputeCompositeScore 500 1700000000000000000)
      = -169999499 := by
    unfold ExtractBaseScore truncToward0
    rw [hc, if_neg (by norm_num)]
    exact Int.ceil_intCast _
  exact ⟨hdiv, by rw [hdiv]; norm_num, hx, by rw [hx]; decide⟩

/-- The two sequential clamping conditionals of
`LeaderboardService.UpdateScore` compute `min (max r 100) 5000`. -/
theorem clamp_eq_min_max (r : ℤ) :
    (if (if r < 100 then (100 : ℤ) else r) > 5000 then (5000 : ℤ)
      else if r < 100 then (100 : ℤ) else r) = min (max r 100) 5000 := by
  split_ifs <;> omega

/-- C4: a successful `UpdateScore(u, r)` stores the clamp of `r` into
`[100, 5000]` in both the sorted set (inside the composite score) and
the metadata map, so a following `Score(u)` returns exactly
`min (max r 100) 5000`, which lies within `[100, 5000]`. -/
theorem c4_update_clamps_and_reads_back (st : ServiceState) (u : String)
    (r t : ℤ) :
    RedisRepository.GetUserScore
        ((LeaderboardService.UpdateScore st u r t false).2).redis u
      = some (min (max r 100) 5000) ∧
    ((LeaderboardService.UpdateScore st u r t false).2).redis.leaderboard.lookup u
      = some (ComputeCompositeScore (min (max r 100) 5000) t) ∧
    100 ≤ min (max r 100) 5000 ∧ min (max r 100) 5000 ≤ 5000 := by
  refine ⟨?_, ?_, by omega, by omega⟩
  · simp only [LeaderboardService.UpdateScore, Bool.false_eq_true, if_false,
      RedisRepository.UpdateScore, RedisRepository.GetUserScore,
      clamp_eq_min_max]
    exact lookup_mapSet _ _ _
  · simp only [LeaderboardService.UpdateScore, Bool.false_eq_true, if_false,
      RedisRepository.UpdateScore, clamp_eq_min_max]
    exact lookup_mapSet _ _ _

/-- C5: each single-user index write increments the version counter by
exactly one inside its pipeline, and a whole `BulkUpdateScores` batch
increments it by exactly one regardless of the number of entries; both
strictly increase the counter. -/
theorem c5_version_increments_once_per_write_and_once_per_batch
    (s : RedisState) (u : String) (r t tb : ℤ) (users : List (String × ℤ)) :
    (RedisRepository.UpdateScore s u r t).version = s.version + 1 ∧
    (RedisRepository.BulkUpdateScores s users tb).version = s.version + 1 ∧
    s.version < (RedisRepository.UpdateScore s u r t).version ∧
    s.version < (RedisRepository.BulkUpdateScores s users tb).version := by
  have ha : (RedisRepository.UpdateScore s u r t).version = s.version + 1 := rfl
  have hb : (RedisRepository.BulkUpdateScores s users tb).version
      = s.version + 1 := by
    simp only [RedisRepository.BulkUpdateScores]
    rw [bulkLoop_version]
  exact ⟨ha, hb, by rw [ha]; omega, by rw [hb]; omega⟩

/-- The exact rational value of the composite formula is strictly
decreasing in the timestamp.  The float64 program realizes this only
up to the rounding of `float64(timestamp)` — see claim C6. -/
theorem computeCompositeScore_exactRat_strict_anti (r t1 t2 : ℤ)
    (h : t1 < t2) :
    ComputeCompositeScore r t2 < ComputeCompositeScore r t1 := by
  unfold ComputeCompositeScore
  have hD : (0 : ℚ) < ((TimestampDivisor : ℤ) : ℚ) := by
    norm_num [TimestampDivisor]
  have h2 : (t1 : ℚ) < (t2 : ℚ) := by exact_mod_cast h
  have h3 : (t1 : ℚ) / ((TimestampDivisor : ℤ) : ℚ)
      < (t2 : ℚ) / ((TimestampDivisor : ℤ) : ℚ) := by
    exact div_lt_div_of_pos_right h2 hD
  linarith

theorem rne_bounds (m E : ℕ) : m / E ≤ rne m E ∧ rne m E ≤ m / E + 1 := by
  unfold rne
  generalize m % E = r
  generalize m / E = q
  split_ifs <;> omega

theorem rne_mono (m1 m2 E : ℕ) (h : m1 ≤ m2) :
    rne m1 E ≤ rne m2 E := by
  have hq12 : m1 / E ≤ m2 / E := Nat.div_le_div_right h
  rcases Nat.lt_or_ge (m1 / E) (m2 / E) with hlt | hge
  · have hb1 := (rne_bounds m1 E).2
    have hb2 := (rne_bounds m2 E).1
    omega
  · have hq : m1 / E = m2 / E := Nat.le_antisymm hq12 hge
    have e1 := Nat.div_add_mod m1 E
    have e2 := Nat.div_add_mod m2 E
    rw [hq] at e1
    have hr : m1 % E ≤ m2 % E := by omega
    unfold rne
    rw [hq]
    split_ifs <;> omega

theorem float64OfNat_small (m : ℕ) (h : m < 2 ^ 53) : float64OfNat m = m := by
  unfold float64OfNat
  rw [if_pos h]

theorem float64OfNat_big_eq (m : ℕ) (hm : 2 ^ 53 ≤ m) :
    float64OfNat m
      = rne m (2 ^ (Nat.log 2 m - 52)) * 2 ^ (Nat.log 2 m - 52) := by
  unfold float64OfNat
  rw [if_neg (Nat.not_lt.mpr hm)]

theorem float64OfNat_big_bounds (m : ℕ) (hm : 2 ^ 53 ≤ m) :
    2 ^ Nat.log 2 m ≤ float64OfNat m ∧
    float64OfNat m ≤ 2 ^ (Nat.log 2 m + 1) := by
  have hm0 : m ≠ 0 := by
    have hx : (0 : ℕ) < 2 ^ 53 := by norm_num
    omega
  have hL : 53 ≤ Nat.log 2 m := (Nat.pow_le_iff_le_log (by norm_num) hm0).mp hm
  have hpl : 2 ^ Nat.log 2 m ≤ m := Nat.pow_log_le_self 2 hm0
  have hpu : m < 2 ^ (Nat.log 2 m + 1) := Nat.lt_pow_succ_log_self (by norm_num) m
  rw [float64OfNat_big_eq m hm]
  have hE : (0 : ℕ) < 2 ^ (Nat.log 2 m - 52) := pow_pos (by norm_num) _
  constructor
  · have h1 : 2 ^ (Nat.log 2 m - (Nat.log 2 m - 52))
        ≤ m / 2 ^ (Nat.log 2 m - 52) := by
      rw [← Nat.pow_div (by omega) (by norm_num)]
      exact Nat.div_le_div_right hpl
    have h2 := (rne_bounds m (2 ^ (Nat.log 2 m - 52))).1
    calc 2 ^ Nat.log 2 m
        = 2 ^ (Nat.log 2 m - (Nat.log 2 m - 52)) * 2 ^ (Nat.log 2 m - 52) := by
          rw [← pow_add]
          congr 1
          omega
      _ ≤ m / 2 ^ (Nat.log 2 m - 52) * 2 ^ (Nat.log 2 m - 52) :=
          Nat.mul_le_mul_right _ h1
      _ ≤ rne m (2 ^ (Nat.log 2 m - 52)) * 2 ^ (Nat.log 2 m - 52) :=
          Nat.mul_le_mul_right _ h2
  · have h3 : m / 2 ^ (Nat.log 2 m - 52) < 2 ^ 53 := by
      rw [Nat.div_lt_iff_lt_mul hE]
      calc m < 2 ^ (Nat.log 2 m + 1) := hpu
        _ = 2 ^ 53 * 2 ^ (Nat.log 2 m - 52) := by
            rw [← pow_add]
            congr 1
            omega
    have h4 := (rne_bounds m (2 ^ (Nat.log 2 m - 52))).2
    calc rne m (2 ^ (Nat.log 2 m - 52)) * 2 ^ (Nat.log 2 m - 52)
        ≤ 2 ^ 53 * 2 ^ (Nat.log 2 m - 52) := Nat.mul_le_mul_right _ (by omega)
      _ = 2 ^ (Nat.log 2 m + 1) := by
          rw [← pow_add]
          congr 1
          omega

theorem float64OfNat_mono (m1 m2 : ℕ) (h : m1 ≤ m2) :
    float64OfNat m1 ≤ float64OfNat m2 := by
  rcases Nat.lt_or_ge m1 (2 ^ 53) with h1 | h1
  · rcases Nat.lt_or_ge m2 (2 ^ 53) with h2 | h2
    · rw [float64OfNat_small m1 h1, float64OfNat_small m2 h2]
      exact h
    · rw [float64OfNat_small m1 h1]
      have hm0 : m2 ≠ 0 := by
        have hx : (0 : ℕ) < 2 ^ 53 := by norm_num
        omega
      have hb := (float64OfNat_big_bounds m2 h2).1
      have hL : 53 ≤ Nat.log 2 m2 :=
        (Nat.pow_le_iff_le_log (by norm_num) hm0).mp h2
      have hp : (2 : ℕ) ^ 53 ≤ 2 ^ Nat.log 2 m2 :=
        Nat.pow_le_pow_right (by norm_num) hL
      omega
  · have h2 : (2 : ℕ) ^ 53 ≤ m2 := le_trans h1 h
    have hL12 : Nat.log 2 m1 ≤ Nat.log 2 m2 := Nat.log_mono_right h
    rcases Nat.lt_or_ge (Nat.log 2 m1) (Nat.log 2 m2) with hlt | hge
    · have hub := (float64OfNat_big_bounds m1 h1).2
      have hlb := (float64OfNat_big_bounds m2 h2).1
      have hstep : (2 : ℕ) ^ (Nat.log 2 m1 + 1) ≤ 2 ^ Nat.log 2 m2 :=
        Nat.pow_le_pow_right (by norm_num) (by omega)
      omega
    · have hLeq : Nat.log 2 m1 = Nat.log 2 m2 := Nat.le_antisymm hL12 hge
      rw [float64OfNat_big_eq m1 h1, float64OfNat_big_eq m2 h2, hLeq]
      exact Nat.mul_le_mul_right _ (rne_mono m1 m2 _ h)

theorem float64OfInt_mono (t1 t2 : ℤ) (h0 : 0 ≤ t1) (h : t1 ≤ t2) :
    float64OfInt t1 ≤ float64OfInt t2 := by
  unfold float64OfInt
  rw [if_pos h0, if_pos (by omega)]
  have hx := float64OfNat_mono t1.toNat t2.toNat (by omega)
  exact_mod_cast hx

/-- Every operating-era timestamp in the 128 ns window starting at
1700000000000000000 ns converts to the same float64 value: the window
start is a multiple of the local granularity 256 and the offsets stay
below the rounding midpoint. -/
theorem float64OfNat_era_collapse (m : ℕ)
    (hlo : 1700000000000000000 ≤ m) (hhi : m < 1700000000000000128) :
    float64OfNat m = 1700000000000000000 := by
  have h53 : (2 : ℕ) ^ 53 ≤ m := by
    have hx : (2 : ℕ) ^ 53 = 9007199254740992 := by norm_num
    omega
  have hL : Nat.log 2 m = 60 := by
    have h60 : (2 : ℕ) ^ 60 = 1152921504606846976 := by norm_num
    have h61 : (2 : ℕ) ^ (60 + 1) = 2305843009213693952 := by norm_num
    refine Nat.log_eq_of_pow_le_of_lt_pow (by omega) (by omega)
  rw [float64OfNat_big_eq m h53, hL]
  have he8 : (60 : ℕ) - 52 = 8 := by norm_num
  rw [he8]
  have h256 : (2 : ℕ) ^ 8 = 256 := by norm_num
  rw [h256]
  unfold rne
  have hdiv : m / 256 = 6640625000000000 := by omega
  have hmod : m % 256 = m - 1700000000000000000 := by omega
  rw [hdiv, hmod, if_pos (by omega)]

theorem float64OfInt_era_collapse (t : ℤ)
    (hlo : 1700000000000000000 ≤ t) (hhi : t < 1700000000000000128) :
    float64OfInt t = 1700000000000000000 := by
  unfold float64OfInt
  rw [if_pos (by omega)]
  rw [float64OfNat_era_collapse t.toNat (by omega) (by omega)]
  norm_num

/-- C6 counterexample: the Go code converts the timestamp with
`float64(timestamp)` before dividing, and at operating-era magnitudes
(binade `[2 ^ 60, 2 ^ 61)`, ulp 256 ns) this conversion identifies
timestamps 100 ns apart, so the two writes receive exactly equal
composite scores and the earlier one is not strictly higher, refuting
strict decrease for every `t1 < t2`. -/
theorem c6_counterexample_float64_collapses_nearby_writes :
    (1700000000000000000 : ℤ) < 1700000000000000100 ∧
    float64OfInt 1700000000000000100 = float64OfInt 1700000000000000000 ∧
    ComputeCompositeScore 5000 (float64OfInt 1700000000000000100)
      = ComputeCompositeScore 5000 (float64OfInt 1700000000000000000) ∧
    ¬ (ComputeCompositeScore 5000 (float64OfInt 1700000000000000100)
        < ComputeCompositeScore 5000 (float64OfInt 1700000000000000000)) := by
  have hc : float64OfInt 1700000000000000100 = float64OfInt 1700000000000000000 := by
    rw [float64OfInt_era_collapse 1700000000000000100 (by norm_num) (by norm_num),
      float64OfInt_era_collapse 1700000000000000000 (by norm_num) (by norm_num)]
  exact ⟨by norm_num, hc, by rw [hc], by rw [hc]; exact lt_irrefl _⟩

/-- C6 (amended): at a fixed rating the composite computed from the
float64-converted timestamp never increases as the timestamp grows,
and timestamps identified by the conversion yield exactly equal
composites (the code computes the same value from the same converted
input); the strict decrease claimed by the spec holds for the exact
rational value of the formula but is not realized by the float64
implementation for timestamps the conversion identifies.  The
arithmetic after the conversion is modelled exactly, which can only
order more pairs strictly, never wrongly, so every stated inequality
also holds of the float64 pipeline. -/
theorem c6_composite_weakly_decreasing_under_float64 (r t1 t2 : ℤ)
    (h0 : 0 ≤ t1) (h : t1 ≤ t2) :
    ComputeCompositeScore r (float64OfInt t2)
        ≤ ComputeCompositeScore r (float64OfInt t1) ∧
    (float64OfInt t1 = float64OfInt t2 →
      ComputeCompositeScore r (float64OfInt t2)
        = ComputeCompositeScore r (float64OfInt t1)) ∧
    (t1 < t2 → ComputeCompositeScore r t2 < ComputeCompositeScore r t1) := by
  refine ⟨?_, fun he => by rw [he],
    fun hlt => computeCompositeScore_exactRat_strict_anti r t1 t2 hlt⟩
  have hf := float64OfInt_mono t1 t2 h0 h
  unfold ComputeCompositeScore
  have hD : (0 : ℚ) < ((TimestampDivisor : ℤ) : ℚ) := by
    norm_num [TimestampDivisor]
  have h2 : ((float64OfInt t1 : ℤ) : ℚ) ≤ ((float64OfInt t2 : ℤ) : ℚ) := by
    exact_mod_cast hf
  have h3 : ((float64OfInt t1 : ℤ) : ℚ) / ((TimestampDivisor : ℤ) : ℚ)
      ≤ ((float64OfInt t2 : ℤ) : ℚ) / ((TimestampDivisor : ℤ) : ℚ) :=
    (div_le_div_iff_of_pos_right hD).mpr h2
  linarith

/-- Witness for C6 (amended) at rating 5000 and the two era
timestamps 100 ns apart used by the counterexample. -/
theorem c6_composite_weakly_decreasing_under_float64_witness :
    ComputeCompositeScore 5000 (float64OfInt 1700000000000000100)
        ≤ ComputeCompositeScore 5000 (float64OfInt 1700000000000000000) ∧
    (float64OfInt 1700000000000000000 = float64OfInt 1700000000000000100 →
      ComputeCompositeScore 5000 (float64OfInt 1700000000000000100)
        = ComputeCompositeScore 5000 (float64OfInt 1700000000000000000)) ∧
    ((1700000000000000000 : ℤ) < 1700000000000000100 →
      ComputeCompositeScore 5000 1700000000000000100
        < ComputeCompositeScore 5000 1700000000000000000) :=
  c6_composite_weakly_decreasing_under_float64 5000 1700000000000000000
    1700000000000000100 (by norm_num) (by norm_num)

/-- C9: when the slice and cardinality reads succeed but the metadata
batch lookup fails, `GetLeaderboard` still succeeds, returning an empty
entry list with the normalized offset and limit and the total
cardinality populated. -/
theorem c9_batch_failure_returns_empty_entries_with_success
    (s : RedisState) (offset limit : ℤ) :
    LeaderboardService.GetLeaderboard s ⟨true, true, false⟩ offset limit
      = Except.ok
          { data := []
            offset := if offset < 0 then 0 else offset
            limit := if limit ≤ 0 ∨ limit > 100 then 50 else limit
            total := RedisRepository.GetTotalUsers s } := by
  unfold LeaderboardService.GetLeaderboard
  simp [applyTieAwareRanking_batch_failed]

/-- A state realized by two accepted writes at rating 100: "bob"
written at t = 9999996000 ns (composite 100.0000004), "alice" at
t = 9999999000 ns (composite 100.0000001).  The two composite scores
differ only beyond the sixth decimal place. -/
def roundingState : RedisState :=
  { leaderboard := [("alice", ComputeCompositeScore 100 9999999000),
                    ("bob", ComputeCompositeScore 100 9999996000)]
    metadata := [("alice", 100), ("bob", 100)]
    version := 2 }

/-- C3 counterexample: `GetUserRank` formats the ZCOUNT bound with
`%f` (six decimals), so for "alice" (composite 100.0000001) the bound
rounds down to 100 and the count includes both "bob" (100.0000004 >
100) and "alice" herself (100.0000001 > 100), giving rank 3, while the
exact strictly-greater count of the claim gives rank 2. -/
theorem c3_counterexample_rounded_bound_overcounts :
    roundingState.leaderboard.lookup "alice"
        = some (ComputeCompositeScore 100 9999999000) ∧
    RedisRepository.GetUserRank roundingState "alice" = some 3 ∧
    exactStrictRank roundingState (ComputeCompositeScore 100 9999999000) = 2 := by
  refine ⟨by norm_num [roundingState, List.lookup], ?_, ?_⟩
  · norm_num [RedisRepository.GetUserRank, roundingState,
      RedisRepository.formatF6, ComputeCompositeScore, TimestampDivisor,
      List.lookup, List.filter]
  · norm_num [exactStrictRank, roundingState, ComputeCompositeScore,
      TimestampDivisor, List.filter]

/-- C3 (amended): for a user present in the sorted set (score `c`) and
the metadata hash (rating `r`), `GetUserRank` returns one plus the
number of members whose composite score strictly exceeds the six
decimal `%f` rounding of `c` — not of `c` itself — and `SearchUser`
reports exactly that value as the global rank. -/
theorem c3_rank_counts_above_rounded_bound (s : RedisState) (u : String)
    (c : ℚ) (r : ℤ)
    (hz : s.leaderboard.lookup u = some c)
    (hm : s.metadata.lookup u = some r) :
    RedisRepository.GetUserRank s u
      = some (((s.leaderboard.filter
          (fun p => RedisRepository.formatF6 c < p.2)).length : ℤ) + 1) ∧
    LeaderboardService.SearchUser s u
      = Except.ok
          { globalRank := ((s.leaderboard.filter
              (fun p => RedisRepository.formatF6 c < p.2)).length : ℤ) + 1
            username := u
            rating := r } := by
  have h1 : RedisRepository.GetUserRank s u
      = some (((s.leaderboard.filter
          (fun p => RedisRepository.formatF6 c < p.2)).length : ℤ) + 1) := by
    unfold RedisRepository.GetUserRank
    simp only [hz]
  refine ⟨h1, ?_⟩
  unfold LeaderboardService.SearchUser
  simp only [h1, RedisRepository.GetUserScore, hm]

/-- Witness for C3 (amended) at the concrete two-member state. -/
theorem c3_rank_counts_above_rounded_bound_witness :
    RedisRepository.GetUserRank roundingState "alice"
      = some (((roundingState.leaderboard.filter
          (fun p => RedisRepository.formatF6
            (ComputeCompositeScore 100 9999999000) < p.2)).length : ℤ) + 1) ∧
    LeaderboardService.SearchUser roundingState "alice"
      = Except.ok
          { globalRank := ((roundingState.leaderboard.filter
              (fun p => RedisRepository.formatF6
                (ComputeCompositeScore 100 9999999000) < p.2)).length : ℤ) + 1
            username := "alice"
            rating := 100 } :=
  c3_rank_counts_above_rounded_bound roundingState "alice"
    (ComputeCompositeScore 100 9999999000) 100
    (by norm_num [roundingState, List.lookup])
    (by norm_num [roundingState, List.lookup])

/-- C7: the service `UpdateScore` errors exactly when the synchronous
index upsert fails, in which case nothing changes (no pool
submission); when the index write succeeds and the bounded queue is
full, the call still succeeds, the index write is visible, the
backpressure counter advances by exactly one, and the queue is left as
it was. -/
theorem c7_error_iff_index_write_fails (st : ServiceState) (u : String)
    (r t : ℤ) (redisFail : Bool) :
    ((LeaderboardService.UpdateScore st u r t redisFail).1.isSome
      ↔ redisFail = true) ∧
    (redisFail = true → (LeaderboardService.UpdateScore st u r t redisFail).2 = st) ∧
    (redisFail = false → st.pool.capacity ≤ st.pool.jobs.length →
      (LeaderboardService.UpdateScore st u r t redisFail).1 = none ∧
      RedisRepository.GetUserScore
          ((LeaderboardService.UpdateScore st u r t redisFail).2).redis u
        = some (min (max r 100) 5000) ∧
      ((LeaderboardService.UpdateScore st u r t redisFail).2).pool.backpressure
        = st.pool.backpressure + 1 ∧
      ((LeaderboardService.UpdateScore st u r t redisFail).2).pool.jobs
        = st.pool.jobs) := by
  cases redisFail with
  | true => exact ⟨by simp [LeaderboardService.UpdateScore], fun _ => rfl, by simp⟩
  | false =>
      refine ⟨by simp [LeaderboardService.UpdateScore], by simp,
        fun _ hfull => ?_⟩
      have hq : ¬ st.pool.jobs.length < st.pool.capacity := by omega
      refine ⟨rfl, ?_, ?_, ?_⟩
      · simp only [LeaderboardService.UpdateScore, Bool.false_eq_true, if_false,
          RedisRepository.UpdateScore, RedisRepository.GetUserScore,
          clamp_eq_min_max]
        exact lookup_mapSet _ _ _
      · simp [LeaderboardService.UpdateScore, WorkerPool.Submit, hq]
      · simp [LeaderboardService.UpdateScore, WorkerPool.Submit, hq]

/-- A service state whose worker pool queue has no slack at all. -/
def saturatedService : ServiceState :=
  { redis := { leaderboard := [], metadata := [], version := 0 }
    pool := { jobs := [], capacity := 0, backpressure := 0 } }

/-- Witness for C7: with a zero-capacity pool, a successful index write
still returns success, is visible, and bumps backpressure by one. -/
theorem c7_error_iff_index_write_fails_witness :
    (LeaderboardService.UpdateScore saturatedService "x" 200 5 false).1 = none ∧
    RedisRepository.GetUserScore
        ((LeaderboardService.UpdateScore saturatedService "x" 200 5 false).2).redis "x"
      = some (min (max 200 100) 5000) ∧
    ((LeaderboardService.UpdateScore saturatedService "x" 200 5 false).2).pool.backpressure
      = saturatedService.pool.backpressure + 1 ∧
    ((LeaderboardService.UpdateScore saturatedService "x" 200 5 false).2).pool.jobs
      = saturatedService.pool.jobs :=
  (c7_error_iff_index_write_fails saturatedService "x" 200 5 false).2.2 rfl
    (by decide)

/-- C8 counterexample: the hub broadcasts on any change of the polled
version, not only on a strict increase.  With last observed version 5
and polled version 3, the subscriber with a non-full queue receives a
`VERSION_UPDATE` frame even though 3 is not greater than 5. -/
theorem c8_counterexample_broadcast_on_non_increase :
    (Hub.checkAndBroadcastVersion
        { clients := [[]], lastVersion := 5 } (some 3)).clients
      = [[{ type := "VERSION_UPDATE", version := 3 }]] ∧
    ¬ ((3 : ℤ) > 5) :=
  ⟨by decide, by decide⟩

/-- C8 (amended): on a tick whose polled version differs from the last
observed one (under the monotone version counter this coincides with
being strictly greater), the hub replaces the last observed version
and offers one `VERSION_UPDATE` frame to every subscriber in order:
a subscriber whose queue (capacity 256) has slack receives it
appended, a full one is skipped but kept; when the polled version
equals the last observed one, or polling fails, nothing changes and no
subscriber receives a message. -/
theorem c8_broadcast_exactly_on_version_change (h : HubState) (v : ℤ) :
    (v ≠ h.lastVersion →
      (Hub.checkAndBroadcastVersion h (some v)).lastVersion = v ∧
      List.Forall₂ (fun send send1 =>
          (send.length < sendQueueCapacity →
            send1 = send ++ [{ type := "VERSION_UPDATE", version := v }]) ∧
          (¬ send.length < sendQueueCapacity → send1 = send))
        h.clients (Hub.checkAndBroadcastVersion h (some v)).clients) ∧
    (v = h.lastVersion → Hub.checkAndBroadcastVersion h (some v) = h) ∧
    Hub.checkAndBroadcastVersion h none = h := by
  refine ⟨?_, ?_, rfl⟩
  · intro hne
    unfold Hub.checkAndBroadcastVersion
    dsimp only
    rw [if_pos hne]
    refine ⟨rfl, ?_⟩
    dsimp only
    induction h.clients with
    | nil => exact List.Forall₂.nil
    | cons q rest ih =>
        simp only [List.map_cons]
        refine List.Forall₂.cons ⟨?_, ?_⟩ ih
        · intro hlt; rw [if_pos hlt]
        · intro hge; rw [if_neg hge]
  · intro heq
    unfold Hub.checkAndBroadcastVersion
    dsimp only
    rw [if_neg (show ¬ v ≠ h.lastVersion from fun hn => hn heq)]

/-- An outbound queue already holding 256 frames: no slack. -/
def fullQueue : List VersionUpdate :=
  List.replicate 256 { type := "VERSION_UPDATE", version := 0 }

/-- Witness for C8 (amended): one empty-queue subscriber and one
full-queue subscriber, version changing from 0 to 1. -/
theorem c8_broadcast_exactly_on_version_change_witness :
    (Hub.checkAndBroadcastVersion
        { clients := [[], fullQueue], lastVersion := 0 } (some 1)).lastVersion = 1 ∧
    List.Forall₂ (fun send send1 =>
        (send.length < sendQueueCapacity →
          send1 = send ++ [{ type := "VERSION_UPDATE", version := 1 }]) ∧
        (¬ send.length < sendQueueCapacity → send1 = send))
      [[], fullQueue]
      (Hub.checkAndBroadcastVersion
        { clients := [[], fullQueue], lastVersion := 0 } (some 1)).clients :=
  (c8_broadcast_exactly_on_version_change
    { clients := [[], fullQueue], lastVersion := 0 } 1).1 (by decide)

/-- C10: a username in the slice that is absent from the metadata hash
(or whose stored value fails to parse, which the batch treats the same
way) is silently omitted by `GetUserScoreBatch`, and the projection
still emits an entry for it at its position, carrying the Go zero
value 0 as rating. -/
theorem c10_missing_metadata_member_gets_rating_zero (s : RedisState)
    (users : List (String × ℚ)) (offset : ℤ) (i : ℕ) (hi : i < users.length)
    (hmiss : s.metadata.lookup (users.get ⟨i, hi⟩).1 = none) :
    (LeaderboardService.applyTieAwareRanking s users offset true).length
        = users.length ∧
    ∀ hj : i < (LeaderboardService.applyTieAwareRanking s users offset true).length,
      ((LeaderboardService.applyTieAwareRanking s users offset true).get
          ⟨i, hj⟩).username = (users.get ⟨i, hi⟩).1 ∧
      ((LeaderboardService.applyTieAwareRanking s users offset true).get
          ⟨i, hj⟩).rating = 0 := by
  have hmap := applyTieAwareRanking_usernames s users offset
  have hlen : (LeaderboardService.applyTieAwareRanking s users offset true).length
      = users.length := by
    have h1 := congrArg List.length hmap
    simpa using h1
  refine ⟨hlen, fun hj => ?_⟩
  have husr : ((LeaderboardService.applyTieAwareRanking s users offset true).get
      ⟨i, hj⟩).username = (users.get ⟨i, hi⟩).1 := by
    have h2 : ((LeaderboardService.applyTieAwareRanking s users offset true).map
        (fun e => e.username))[i]? = (users.map Prod.fst)[i]? := by
      rw [hmap]
    rw [List.getElem?_map, List.getElem?_map, List.getElem?_eq_getElem hj,
      List.getElem?_eq_getElem hi] at h2
    simp only [Option.map_some', Option.some.injEq] at h2
    rw [List.get_eq_getElem, List.get_eq_getElem]
    exact h2
  refine ⟨husr, ?_⟩
  have hmem : (LeaderboardService.applyTieAwareRanking s users offset true).get
      ⟨i, hj⟩ ∈ LeaderboardService.applyTieAwareRanking s users offset true :=
    List.get_mem _ _ hj
  have h5 := applyTieAwareRanking_rating_of_mem s users offset _ hmem
  rw [husr, lookup_GetUserScoreBatch_eq_none s _ hmiss] at h5
  simpa using h5

/-- A member of the sorted set with no metadata entry at all. -/
def ghostState : RedisState :=
  { leaderboard := [("ghost", (201 : ℚ) / 2)], metadata := [], version := 1 }

/-- Witness for C10 at the one-member state without metadata. -/
theorem c10_missing_metadata_member_gets_rating_zero_witness :
    (LeaderboardService.applyTieAwareRanking ghostState
        [("ghost", (201 : ℚ) / 2)] 0 true).length = 1 ∧
    ∀ hj : 0 < (LeaderboardService.applyTieAwareRanking ghostState
        [("ghost", (201 : ℚ) / 2)] 0 true).length,
      ((LeaderboardService.applyTieAwareRanking ghostState
          [("ghost", (201 : ℚ) / 2)] 0 true).get ⟨0, hj⟩).username = "ghost" ∧
      ((LeaderboardService.applyTieAwareRanking ghostState
          [("ghost", (201 : ℚ) / 2)] 0 true).get ⟨0, hj⟩).rating = 0 :=
  c10_missing_metadata_member_gets_rating_zero ghostState
    [("ghost", (201 : ℚ) / 2)] 0 0 (by decide) rfl

/-- C2: every successful `GetLeaderboard` result carries entries whose
rank column is exactly the 1224 standard-competition projection of the
spec, started at the normalized offset plus one, over the rating
column; the entries list the slice usernames in slice order, and each
rating is the `ScoreBatch` metadata value of the username (Go zero
value 0 when omitted). -/
theorem c2_leaderboard_ranks_follow_1224 (s : RedisState)
    (offset limit : ℤ) (resp : LeaderboardResponse)
    (h : LeaderboardService.GetLeaderboard s ⟨true, true, true⟩ offset limit
      = Except.ok resp) :
    resp.data.map (fun e => e.rank)
      = standardCompetitionRanks resp.offset
          (resp.data.map (fun e => e.rating)) ∧
    resp.data.map (fun e => e.username)
      = (RedisRepository.GetTopUsers s resp.offset resp.limit).map Prod.fst ∧
    ∀ e ∈ resp.data,
      e.rating = ((RedisRepository.GetUserScoreBatch s
          ((RedisRepository.GetTopUsers s resp.offset resp.limit).map
            Prod.fst)).lookup e.username).getD 0 := by
  unfold LeaderboardService.GetLeaderboard at h
  rw [if_pos rfl, if_pos rfl, Except.ok.injEq] at h
  subst h
  dsimp only
  refine ⟨applyTieAwareRanking_ranks s _ _, applyTieAwareRanking_usernames s _ _,
    fun e he => applyTieAwareRanking_rating_of_mem s _ _ e he⟩

/-- A state written by three serial updates:
("a", 500) at t = 1000, ("b", 500) at t = 2000, ("c", 300) at
t = 1500, matching scenario 1 of the spec. -/
def exampleState : RedisState :=
  { leaderboard := [("a", ComputeCompositeScore 500 1000),
                    ("b", ComputeCompositeScore 500 2000),
                    ("c", ComputeCompositeScore 300 1500)]
    metadata := [("a", 500), ("b", 500), ("c", 300)]
    version := 3 }

/-- The response that `GetLeaderboard(0, 10)` produces on
`exampleState`: ranks 1, 1, 3. -/
def exampleResponse : LeaderboardResponse :=
  { data := [{ rank := 1, username := "a", rating := 500 },
             { rank := 1, username := "b", rating := 500 },
             { rank := 3, username := "c", rating := 300 }]
    offset := 0
    limit := 10
    total := 3 }

/-- Witness for C2: the three-user example evaluates to ranks 1, 1, 3
and those ranks are the 1224 projection of its ratings. -/
theorem c2_leaderboard_ranks_follow_1224_witness :
    LeaderboardService.GetLeaderboard exampleState ⟨true, true, true⟩ 0 10
      = Except.ok exampleResponse ∧
    exampleResponse.data.map (fun e => e.rank)
      = standardCompetitionRanks exampleResponse.offset
          (exampleResponse.data.map (fun e => e.rating)) := by
  have h : LeaderboardService.GetLeaderboard exampleState ⟨true, true, true⟩ 0 10
      = Except.ok exampleResponse := by
    norm_num [LeaderboardService.GetLeaderboard,
      LeaderboardService.applyTieAwareRanking, LeaderboardService.rankLoop,
      RedisRepository.GetTopUsers, RedisRepository.zrevAll,
      RedisRepository.insertDesc, RedisRepository.zrevBefore,
      RedisRepository.GetTotalUsers, RedisRepository.GetUserScoreBatch,
      ExtractBaseScore, truncToward0, ComputeCompositeScore, TimestampDivisor,
      exampleState, exampleResponse, List.lookup, List.filterMap, Int.toNat]
    simp
  exact ⟨h, (c2_leaderboard_ranks_follow_1224 exampleState 0 10
    exampleResponse h).1⟩

end Kinetix
